import Mathlib

/-!
Verification development for the europa-core HTML-to-Markdown conversion
engine: a shallow embedding of the tree walker (`Europa.convertElement`),
the per-conversion lifecycle hooks run by `Europa.convert`, and the
simplified visibility check (`DOMUtilities.isVisible`), together with
theorems about the plugin hook protocol and the text-node output modes.

The engine is instrumented with an event trace recording every hook
invocation and every text write the engine itself performs; the trace is
produced by the engine's structure, while plugin hooks remain arbitrary
state transformers that may fail (JavaScript exceptions are modelled with
`Except`).
-/

namespace Europa

/-- Computed style of an element, as inspected by the simplified visibility
check (`DOMUtilities.isVisible` in the source): only the computed `display`
and `visibility` properties are consulted. -/
structure Style where
  display : String
  visibility : String

/-- Simplified visibility check from the source: the element is visible when
its computed `display` is not `none` and its computed `visibility` is not
`hidden`. -/
def isVisible (style : Style) : Bool :=
  style.display != "none" && style.visibility != "hidden"

mutual

/-- DOM nodes as the conversion engine distinguishes them: element nodes
(`ELEMENT_NODE`), text nodes (`TEXT_NODE`, whose `nodeValue` may be null,
modelled with `Option`), and every other node type (comments, processing
instructions, ...), which the engine's `if`/`else if` chain ignores. -/
inductive Node where
  | element (tagName : String) (style : Style) (children : Forest)
  | text (nodeValue : Option String)
  | other (children : Forest)

/-- A list of sibling DOM nodes (`childNodes`), in document order. -/
inductive Forest where
  | nil
  | cons (head : Node) (tail : Forest)

end

/-- Modelled from the spec: the Output State of one conversion call (the
`Conversion`/`Transformation` class is not among the provided source files,
so its fields follow the spec's data model): the growing buffer, a pending
paragraph break that is flushed by the next append, the current element and
its derived lower-cased tag name, the whitespace flags, the indentation
prefix `left`, and the code/preformatted mode flags. -/
structure Conversion where
  buffer : String
  pending : String
  element? : Option Node
  tagName : String
  atLeft : Bool
  atParagraph : Bool
  atNoWhiteSpace : Bool
  left : String
  inPreformattedBlock : Bool
  inCodeBlock : Bool

/-- Modelled from the spec: the fresh Output State constructed for each
top-level `convert` call. -/
def Conversion.initial : Conversion :=
  { buffer := ""
    pending := ""
    element? := Option.none
    tagName := ""
    atLeft := true
    atParagraph := true
    atNoWhiteSpace := false
    left := ""
    inPreformattedBlock := false
    inCodeBlock := false }

/-- The `tagName` of a node: the element's tag name, empty for non-elements. -/
def Node.tagNameOf : Node → String
  | .element t _ _ => t
  | _ => ""

/-- Lower-case every character of a string (`String.prototype.toLowerCase`). -/
def toLowerString (s : String) : String :=
  String.mk (s.data.map Char.toLower)

/-- Trim leading and trailing whitespace of a string
(`String.prototype.trim`). -/
def trimString (s : String) : String :=
  String.mk (((s.data.dropWhile Char.isWhitespace).reverse.dropWhile Char.isWhitespace).reverse)

/-- Modelled from the spec: assigning `conversion.element = element` also
derives `tagName` as the lower-cased name of the current element. -/
def Conversion.setElement (conv : Conversion) (n : Node) : Conversion :=
  { conv with element? := some n, tagName := toLowerString (Node.tagNameOf n) }

/-- Collapse runs of whitespace to a single space (the JavaScript
`replace` of all whitespace runs used for collapsible writes). -/
def collapseChars : List Char → Bool → List Char
  | [], _ => []
  | c :: cs, prevWs =>
    if c.isWhitespace then
      if prevWs then collapseChars cs true
      else ' ' :: collapseChars cs true
    else c :: collapseChars cs false

/-- Collapse whitespace runs in a string to single spaces. -/
def collapseWhitespace (s : String) : String :=
  String.mk (collapseChars s.data false)

/-- Drop all leading whitespace of a string. -/
def dropLeadingWhitespace (s : String) : String :=
  String.mk (s.data.dropWhile Char.isWhitespace)

/-- Replace every backtick with a backslash-escaped backtick, translating
the source's global regex replacement on code-block text. -/
def escapeChars : List Char → List Char
  | [] => []
  | c :: cs =>
    if c = '\x60' then '\\' :: c :: escapeChars cs
    else c :: escapeChars cs

/-- Escape backticks in a string (`value.replace` on every backtick). -/
def escapeBackticks (s : String) : String :=
  String.mk (escapeChars s.data)

/-- Prepend the indentation prefix after every line break of a write. -/
def indentChars (left : List Char) : List Char → List Char
  | [] => []
  | c :: cs =>
    if c = '\n' then c :: (left ++ indentChars left cs)
    else c :: indentChars left cs

/-- Modelled from the spec: appending text to the buffer first flushes any
pending paragraph break, then appends the text verbatim. -/
def Conversion.append (conv : Conversion) (s : String) : Conversion :=
  { conv with buffer := conv.buffer ++ conv.pending ++ s, pending := "" }

/-- Modelled from the spec: the primitive write operation of the Output
State. A collapsible write collapses whitespace runs to single spaces and
drops leading whitespace at a line start (or right after plugin markup);
a raw write is emitted verbatim. The indentation prefix is prepended after
every line break the write introduces; a non-empty write clears `atLeft`
and `atNoWhiteSpace`. -/
def Conversion.output (conv : Conversion) (s : String) (collapsible : Bool) : Conversion :=
  let t1 := if collapsible then collapseWhitespace s else s
  let t2 :=
    if collapsible && (conv.atLeft || conv.atNoWhiteSpace) then dropLeadingWhitespace t1
    else t1
  let t3 := String.mk (indentChars conv.left.data t2.data)
  if t3.isEmpty then conv.append t3
  else { conv.append t3 with atLeft := false, atNoWhiteSpace := false, atParagraph := false }

/-- Errors raised by plugin hooks (JavaScript exceptions). -/
abbrev Err := String

/-- The per-element scratch context: a fresh key/value map created before
each element visit, threaded from `before` through `transform` to `after`. -/
abbrev Ctx := List (String × String)

/-- The plugin contract the engine depends on: the declared tag names and
the five lifecycle hooks. A hook may mutate the conversion state (and the
per-element context) or raise an error; `transform` returns the boolean
"descend" decision, or no value at all (JavaScript `undefined`), modelled
with `Option Bool`. -/
structure Plugin where
  tagNames : List String
  beforeAll : Conversion → Except Err Conversion
  afterAll : Conversion → Except Err Conversion
  before : Conversion → Ctx → Except Err (Conversion × Ctx)
  transform : Conversion → Ctx → Except Err (Conversion × Ctx × Option Bool)
  after : Conversion → Ctx → Except Err Conversion

/-- The plugin registry: the tag-name-keyed map `pluginManager.plugins`,
modelled as an insertion-ordered association list (a JavaScript object's
own enumerable properties). -/
abbrev Registry := List (String × Plugin)

/-- Look up the plugin registered for a tag name
(`pluginManager.plugins[conversion.tagName]`). -/
def lookupPlugin (reg : Registry) (k : String) : Option Plugin :=
  (reg.find? (fun en => en.1 == k)).map (fun en => en.2)

/-- Set one key of the registry, overwriting an existing binding in place or
appending a new one (JavaScript property assignment on an object). -/
def setEntry (reg : Registry) (k : String) (p : Plugin) : Registry :=
  if reg.any (fun en => en.1 == k) then
    reg.map (fun en => if en.1 == k then (k, p) else en)
  else reg ++ [(k, p)]

/-- Modelled from the spec: `PluginManager.register` (source file not
provided) binds the plugin to each of its declared tag names, overwriting
any existing binding for only the overlapping tag names. -/
def registerPlugin (reg : Registry) (p : Plugin) : Registry :=
  p.tagNames.foldl (fun m t => setEntry m (toLowerString t) p) reg

/-- The events the engine itself performs during a conversion, recorded in
document order: the conversion-wide `beforeAll`/`afterAll` hook calls
(keyed by the registry entry that triggered them), the per-element
`before`/`transform`/`after` hook calls (keyed by the element's position
path in the tree), and the text writes with their collapsible flag. -/
inductive Event where
  | beforeAllCall (key : String)
  | afterAllCall (key : String)
  | beforeCall (path : List Nat)
  | transformCall (path : List Nat)
  | afterCall (path : List Nat)
  | write (s : String) (collapsible : Bool)
deriving DecidableEq

/-- The element path of a per-element hook-call event. -/
def Event.path? : Event → Option (List Nat)
  | .beforeCall p => some p
  | .transformCall p => some p
  | .afterCall p => some p
  | _ => Option.none

/-- Whether an event is a conversion-wide lifecycle hook call
(`beforeAll`/`afterAll`). -/
def Event.isLifecycle : Event → Bool
  | .beforeAllCall _ => true
  | .afterAllCall _ => true
  | _ => false

mutual

/-- The recursive visitor `Europa.convertElement`: nothing happens for
non-element, non-text nodes; an invisible element aborts its whole subtree;
otherwise the current element is recorded, a fresh context is created, the
matched plugin's `before` and `transform` hooks run (the latter's return
captured as the descend decision, a missing return value being falsy), the
children are visited in document order when descending, and finally the
plugin's `after` hook runs; text nodes are written according to the
preformatted/code mode flags. Errors abort the visit immediately; the
returned trace records the events that happened before the error. -/
def convertElement (reg : Registry) (q : List Nat) (node : Node) (conv : Conversion) :
    List Event × Except Err Conversion :=
  match node with
  | .element tag style cs =>
    if isVisible style then
      let conv1 := conv.setElement (Node.element tag style cs)
      match lookupPlugin reg conv1.tagName with
      | some pl =>
        match pl.before conv1 [] with
        | .error e => ([Event.beforeCall q], .error e)
        | .ok (c2, x2) =>
          match pl.transform c2 x2 with
          | .error e => ([Event.beforeCall q, Event.transformCall q], .error e)
          | .ok (c3, x3, ret) =>
            if ret.getD false then
              match convertChildren reg q 0 cs c3 with
              | (evc, .error e) =>
                (Event.beforeCall q :: Event.transformCall q :: evc, .error e)
              | (evc, .ok c4) =>
                (Event.beforeCall q :: Event.transformCall q :: evc ++ [Event.afterCall q],
                  pl.after c4 x3)
            else
              ([Event.beforeCall q, Event.transformCall q, Event.afterCall q], pl.after c3 x3)
      | Option.none => convertChildren reg q 0 cs conv1
    else ([], .ok conv)
  | .text v =>
    let value := v.getD ""
    if conv.inPreformattedBlock then
      ([Event.write value false], .ok (conv.output value false))
    else if conv.inCodeBlock then
      ([Event.write (escapeBackticks value) false],
        .ok (conv.output (escapeBackticks value) false))
    else ([Event.write value true], .ok (conv.output value true))
  | .other _ => ([], .ok conv)
termination_by structural node

/-- The children loop of `Europa.convertElement`: visit each child node in
document order, threading the conversion state, stopping at the first
error (a thrown exception aborts the loop). -/
def convertChildren (reg : Registry) (q : List Nat) (i : Nat) (f : Forest) (conv : Conversion) :
    List Event × Except Err Conversion :=
  match f with
  | .nil => ([], .ok conv)
  | .cons c rest =>
    match convertElement reg (q ++ [i]) c conv with
    | (ev1, .error e) => (ev1, .error e)
    | (ev1, .ok c1) =>
      match convertChildren reg q (i + 1) rest c1 with
      | (ev2, r2) => (ev1 ++ ev2, r2)
termination_by structural f

end

/-- The `beforeAll` phase of `Europa.convert`: iterate the registry's own
entries in order, calling each bound plugin's `beforeAll` hook once per
entry, stopping at the first error. -/
def runBeforeAll : Registry → Conversion → List Event × Except Err Conversion
  | [], conv => ([], .ok conv)
  | (k, pl) :: rest, conv =>
    match pl.beforeAll conv with
    | .error e => ([Event.beforeAllCall k], .error e)
    | .ok c1 =>
      match runBeforeAll rest c1 with
      | (ev2, r2) => (Event.beforeAllCall k :: ev2, r2)

/-- The `afterAll` phase of `Europa.convert`, symmetric to `runBeforeAll`. -/
def runAfterAll : Registry → Conversion → List Event × Except Err Conversion
  | [], conv => ([], .ok conv)
  | (k, pl) :: rest, conv =>
    match pl.afterAll conv with
    | .error e => ([Event.afterAllCall k], .error e)
    | .ok c1 =>
      match runAfterAll rest c1 with
      | (ev2, r2) => (Event.afterAllCall k :: ev2, r2)

/-- The body of a conversion: run every registry entry's `beforeAll`, walk
the tree from the root, then run every entry's `afterAll`. -/
def convertPipeline (reg : Registry) (root : Node) (conv : Conversion) :
    List Event × Except Err Conversion :=
  match runBeforeAll reg conv with
  | (ev1, .error e) => (ev1, .error e)
  | (ev1, .ok c1) =>
    match convertElement reg [] root c1 with
    | (ev2, .error e) => (ev1 ++ ev2, .error e)
    | (ev2, .ok c2) =>
      match runAfterAll reg c2 with
      | (ev3, r3) => (ev1 ++ ev2 ++ ev3, r3)

/-- The finalization of `Europa.convert`:
`conversion.append('').buffer.trim()`. -/
def finishConvert : List Event × Except Err Conversion → List Event × Except Err String
  | (ev, .error e) => (ev, .error e)
  | (ev, .ok c) => (ev, .ok (trimString (c.append "").buffer))

/-- The computed style of a freshly created detached container element (its
computed `display`/`visibility` are empty strings, hence visible). -/
def detachedStyle : Style :=
  { display := "", visibility := "" }

/-- The `html` argument of `Europa.convert`: either an HTML string or a DOM
element; the whole argument may also be null/undefined (`Option`). -/
inductive HtmlInput where
  | str (s : String)
  | elem (node : Node)

/-- JavaScript falsiness of the `html` argument: null/undefined or the
empty string (an element is always truthy). -/
def falsy : Option HtmlInput → Bool
  | Option.none => true
  | some (.str s) => s.isEmpty
  | some (.elem _) => false

/-- The traversal root `Europa.convert` builds: a string input is parsed
into a fresh detached `div` container whose inner HTML is the input (the
DOM provider's parse is an external collaborator, passed as a function);
an element input is used directly. -/
def rootOf (parse : String → Forest) : HtmlInput → Node
  | .str s => Node.element "div" detachedStyle (parse s)
  | .elem n => n

/-- `Europa.convert`: falsy input returns the empty string immediately;
otherwise the root is built (`div` container for a string, the element
itself otherwise), the pipeline runs, and the result is the buffer after a
final flushing append, trimmed. -/
def convert (reg : Registry) (parse : String → Forest) (html : Option HtmlInput) :
    List Event × Except Err String :=
  match html with
  | Option.none => ([], .ok "")
  | some (.str s) =>
    if s.isEmpty then ([], .ok "")
    else finishConvert (convertPipeline reg (Node.element "div" detachedStyle (parse s)) Conversion.initial)
  | some (.elem n) =>
    finishConvert (convertPipeline reg n Conversion.initial)

/-- A plugin whose hooks succeed without touching the state; its `transform`
hook returns `ret` (possibly no value at all, like a JavaScript function
without a return statement). -/
def okPlugin (tags : List String) (ret : Option Bool) : Plugin :=
  { tagNames := tags
    beforeAll := fun c => Except.ok c
    afterAll := fun c => Except.ok c
    before := fun c x => Except.ok (c, x)
    transform := fun c x => Except.ok (c, x, ret)
    after := fun c _ => Except.ok c }

/-- A plugin whose `before` hook raises an error. -/
def bombPlugin (tags : List String) : Plugin :=
  { okPlugin tags (some true) with before := fun _ _ => Except.error "boom" }

/-- A plugin that appends a marker to the buffer in its conversion-wide
`beforeAll` and `afterAll` hooks, making their invocations observable. -/
def markPlugin (tags : List String) : Plugin :=
  { okPlugin tags (some true) with
    beforeAll := fun c => Except.ok (c.append "A")
    afterAll := fun c => Except.ok (c.append "Z") }

/-- An empty parse result, standing for a DOM provider that is never
consulted in the example at hand. -/
def parseNil : String → Forest := fun _ => Forest.nil

/-- Soundness property of one traced event with respect to the subtree that
emitted it: it is not a conversion-wide lifecycle call, and any element path
it carries is at least `k` deep. -/
def EventOk (k : Nat) (e : Event) : Prop :=
  e.isLifecycle = false ∧ ∀ pp, e.path? = some pp → k ≤ pp.length

theorem eventOk_beforeCall (k : Nat) (q : List Nat) (h : k ≤ q.length) :
    EventOk k (Event.beforeCall q) :=
  ⟨rfl, fun pp hpp => by
    simp only [Event.path?, Option.some.injEq] at hpp
    exact hpp ▸ h⟩

theorem eventOk_transformCall (k : Nat) (q : List Nat) (h : k ≤ q.length) :
    EventOk k (Event.transformCall q) :=
  ⟨rfl, fun pp hpp => by
    simp only [Event.path?, Option.some.injEq] at hpp
    exact hpp ▸ h⟩

theorem eventOk_afterCall (k : Nat) (q : List Nat) (h : k ≤ q.length) :
    EventOk k (Event.afterCall q) :=
  ⟨rfl, fun pp hpp => by
    simp only [Event.path?, Option.some.injEq] at hpp
    exact hpp ▸ h⟩

theorem eventOk_write (k : Nat) (s : String) (b : Bool) : EventOk k (Event.write s b) :=
  ⟨rfl, fun pp hpp => by
    simp only [Event.path?] at hpp
    exact Option.noConfusion hpp⟩

theorem eventOk_mono (j k : Nat) (h : j ≤ k) (e : Event) (he : EventOk k e) : EventOk j e :=
  ⟨he.1, fun pp hpp => Nat.le_trans h (he.2 pp hpp)⟩

mutual

/-- Every event traced while visiting a node at path `q` is a per-element
hook call or a write, never a conversion-wide lifecycle call, and its
element path (if any) is at least as deep as `q`. -/
theorem trace_elem_sound (reg : Registry) (q : List Nat) (n : Node) (conv : Conversion) :
    ∀ e ∈ (convertElement reg q n conv).1, EventOk q.length e := by
  cases n with
  | element tag style cs =>
    intro e he
    simp only [convertElement] at he
    split at he
    · split at he
      · split at he
        · simp only [List.mem_singleton] at he
          exact he ▸ eventOk_beforeCall _ q (Nat.le_refl _)
        · split at he
          · simp only [List.mem_cons, List.not_mem_nil, or_false] at he
            rcases he with rfl | rfl
            · exact eventOk_beforeCall _ q (Nat.le_refl _)
            · exact eventOk_transformCall _ q (Nat.le_refl _)
          · split at he
            · split at he
              next evc err heq =>
                simp only [List.mem_cons] at he
                rcases he with rfl | rfl | hm
                · exact eventOk_beforeCall _ q (Nat.le_refl _)
                · exact eventOk_transformCall _ q (Nat.le_refl _)
                · have := trace_forest_sound reg q 0 cs _ e (by rw [heq]; exact hm)
                  exact eventOk_mono _ _ (Nat.le_succ _) e this
              next evc c4 heq =>
                simp only [List.mem_cons, List.mem_append, List.mem_singleton,
                  List.not_mem_nil, or_false] at he
                rcases he with (rfl | rfl | hm) | rfl
                · exact eventOk_beforeCall _ q (Nat.le_refl _)
                · exact eventOk_transformCall _ q (Nat.le_refl _)
                · have := trace_forest_sound reg q 0 cs _ e (by rw [heq]; exact hm)
                  exact eventOk_mono _ _ (Nat.le_succ _) e this
                · exact eventOk_afterCall _ q (Nat.le_refl _)
            · simp only [List.mem_cons, List.not_mem_nil, or_false] at he
              rcases he with rfl | rfl | rfl
              · exact eventOk_beforeCall _ q (Nat.le_refl _)
              · exact eventOk_transformCall _ q (Nat.le_refl _)
              · exact eventOk_afterCall _ q (Nat.le_refl _)
      · have := trace_forest_sound reg q 0 cs _ e he
        exact eventOk_mono _ _ (Nat.le_succ _) e this
    · simp only [List.not_mem_nil] at he
  | text v =>
    intro e he
    simp only [convertElement] at he
    split at he
    · simp only [List.mem_singleton] at he
      exact he ▸ eventOk_write _ _ _
    · split at he
      · simp only [List.mem_singleton] at he
        exact he ▸ eventOk_write _ _ _
      · simp only [List.mem_singleton] at he
        exact he ▸ eventOk_write _ _ _
  | other cs =>
    intro e he
    simp only [convertElement, List.not_mem_nil] at he
termination_by structural n

/-- Every event traced by the children loop at parent path `q` carries an
element path strictly deeper than `q` (or is a write), and is never a
conversion-wide lifecycle call. -/
theorem trace_forest_sound (reg : Registry) (q : List Nat) (i : Nat) (f : Forest)
    (conv : Conversion) :
    ∀ e ∈ (convertChildren reg q i f conv).1, EventOk (q.length + 1) e := by
  cases f with
  | nil =>
    intro e he
    simp only [convertChildren, List.not_mem_nil] at he
  | cons c rest =>
    intro e he
    simp only [convertChildren] at he
    split at he
    next ev1 err heq =>
      have := trace_elem_sound reg (q ++ [i]) c conv e (by rw [heq]; exact he)
      simpa [List.length_append] using this
    next ev1 c1 heq =>
      simp only [List.mem_append] at he
      rcases he with hm | hm
      · have := trace_elem_sound reg (q ++ [i]) c conv e (by rw [heq]; exact hm)
        simpa [List.length_append] using this
      · exact trace_forest_sound reg q (i + 1) rest c1 e hm
termination_by structural f

end

/-- A successful `beforeAll` phase calls each registry entry's hook exactly
once, in registry order: its trace is the per-entry `beforeAllCall` list. -/
theorem runBeforeAll_ok_trace :
    ∀ (reg : Registry) (conv : Conversion) (ev : List Event) (c : Conversion),
      runBeforeAll reg conv = (ev, Except.ok c) →
      ev = reg.map (fun en => Event.beforeAllCall en.1) := by
  intro reg
  induction reg with
  | nil =>
    intro conv ev c h
    simp only [runBeforeAll, Prod.mk.injEq] at h
    simp [← h.1]
  | cons en rest ih =>
    intro conv ev c h
    obtain ⟨k, pl⟩ := en
    simp only [runBeforeAll] at h
    split at h
    · simp only [Prod.mk.injEq] at h
      exact absurd h.2 (by simp)
    next c1 hook =>
      rw [Prod.mk.injEq] at h
      obtain ⟨hev, hr⟩ := h
      have hrest : runBeforeAll rest c1 = ((runBeforeAll rest c1).1, Except.ok c) := by
        rw [← hr]
      rw [← hev]
      simp only [List.map_cons, List.cons.injEq]
      exact ⟨trivial, ih c1 _ c hrest⟩

/-- A successful `afterAll` phase calls each registry entry's hook exactly
once, in registry order: its trace is the per-entry `afterAllCall` list. -/
theorem runAfterAll_ok_trace :
    ∀ (reg : Registry) (conv : Conversion) (ev : List Event) (c : Conversion),
      runAfterAll reg conv = (ev, Except.ok c) →
      ev = reg.map (fun en => Event.afterAllCall en.1) := by
  intro reg
  induction reg with
  | nil =>
    intro conv ev c h
    simp only [runAfterAll, Prod.mk.injEq] at h
    simp [← h.1]
  | cons en rest ih =>
    intro conv ev c h
    obtain ⟨k, pl⟩ := en
    simp only [runAfterAll] at h
    split at h
    · simp only [Prod.mk.injEq] at h
      exact absurd h.2 (by simp)
    next c1 hook =>
      rw [Prod.mk.injEq] at h
      obtain ⟨hev, hr⟩ := h
      have hrest : runAfterAll rest c1 = ((runAfterAll rest c1).1, Except.ok c) := by
        rw [← hr]
      rw [← hev]
      simp only [List.map_cons, List.cons.injEq]
      exact ⟨trivial, ih c1 _ c hrest⟩

theorem count_beforeAll_in_beforeMap (k : String) :
    ∀ reg : Registry,
      (reg.map (fun en => Event.beforeAllCall en.1)).count (Event.beforeAllCall k)
        = (reg.map Prod.fst).count k := by
  intro reg
  induction reg with
  | nil => rfl
  | cons en rest ih => simp [List.count_cons, ih]

theorem count_afterAll_in_afterMap (k : String) :
    ∀ reg : Registry,
      (reg.map (fun en => Event.afterAllCall en.1)).count (Event.afterAllCall k)
        = (reg.map Prod.fst).count k := by
  intro reg
  induction reg with
  | nil => rfl
  | cons en rest ih => simp [List.count_cons, ih]

theorem count_beforeAll_in_afterMap (k : String) (reg : Registry) :
    (reg.map (fun en => Event.afterAllCall en.1)).count (Event.beforeAllCall k) = 0 := by
  rw [List.count_eq_zero]
  intro hm
  simp only [List.mem_map] at hm
  obtain ⟨en, _, hEq⟩ := hm
  exact Event.noConfusion hEq

theorem count_afterAll_in_beforeMap (k : String) (reg : Registry) :
    (reg.map (fun en => Event.beforeAllCall en.1)).count (Event.afterAllCall k) = 0 := by
  rw [List.count_eq_zero]
  intro hm
  simp only [List.mem_map] at hm
  obtain ⟨en, _, hEq⟩ := hm
  exact Event.noConfusion hEq

theorem count_beforeAll_in_clean (ev : List Event)
    (h : ∀ e ∈ ev, Event.isLifecycle e = false) (k : String) :
    ev.count (Event.beforeAllCall k) = 0 := by
  rw [List.count_eq_zero]
  intro hm
  have := h _ hm
  simp [Event.isLifecycle] at this

theorem count_afterAll_in_clean (ev : List Event)
    (h : ∀ e ∈ ev, Event.isLifecycle e = false) (k : String) :
    ev.count (Event.afterAllCall k) = 0 := by
  rw [List.count_eq_zero]
  intro hm
  have := h _ hm
  simp [Event.isLifecycle] at this

/-- Counting hook-call events in a well-formed element trace: one `before`
and one `after` at the root path, the events in between being strictly
deeper. -/
theorem count_sandwich (q : List Nat) (mid : List Event)
    (h : ∀ e ∈ mid, EventOk (q.length + 1) e) :
    ((Event.beforeCall q :: Event.transformCall q :: mid)
        ++ [Event.afterCall q]).count (Event.beforeCall q) = 1
    ∧ ((Event.beforeCall q :: Event.transformCall q :: mid)
        ++ [Event.afterCall q]).count (Event.afterCall q) = 1 := by
  have hb : mid.count (Event.beforeCall q) = 0 := by
    rw [List.count_eq_zero]
    intro hm
    have := (h _ hm).2 q rfl
    omega
  have ha : mid.count (Event.afterCall q) = 0 := by
    rw [List.count_eq_zero]
    intro hm
    have := (h _ hm).2 q rfl
    omega
  constructor
  · simp [List.count_append, List.count_cons, hb]
  · simp [List.count_append, List.count_cons, ha]

/-- Example registry binding the marker tag to a well-behaved plugin. -/
def wReg : Registry := [("b", okPlugin ["b"] (some true))]

/-- Example element: a matched `b` element with one text child. -/
def wTree : Node :=
  Node.element "b" (Style.mk "" "") (Forest.cons (Node.text (some "x")) Forest.nil)

/-- The trace of visiting `wTree` under `wReg`. -/
def wTrace : List Event :=
  [Event.beforeCall [], Event.transformCall [], Event.write "x" true, Event.afterCall []]

/-- The Output State after visiting `wTree` under `wReg`. -/
def wConv : Conversion :=
  (Conversion.initial.setElement wTree).output "x" true

/-- C1 (amended): for every visible element matched by a plugin whose visit
completes without an error, the engine calls the plugin's `before` hook
exactly once and then its `after` hook exactly once, in that order,
regardless of `transform`'s return value: the visit's trace is `before`,
`transform`, the (strictly deeper) descendant events, then `after`. -/
theorem before_after_paired_on_success
    (reg : Registry) (q : List Nat) (tag : String) (st : Style) (cs : Forest)
    (conv conv' : Conversion) (ev : List Event) (pl : Plugin)
    (hvis : isVisible st = true)
    (hpl : lookupPlugin reg (toLowerString tag) = some pl)
    (hrun : convertElement reg q (Node.element tag st cs) conv = (ev, Except.ok conv')) :
    ∃ mid, ev = (Event.beforeCall q :: Event.transformCall q :: mid) ++ [Event.afterCall q]
      ∧ ev.count (Event.beforeCall q) = 1
      ∧ ev.count (Event.afterCall q) = 1 := by
  simp only [convertElement] at hrun
  split at hrun
  · split at hrun
    next pl2 heq =>
      simp only [Conversion.setElement, Node.tagNameOf] at heq
      rw [hpl] at heq
      injection heq with hpl2
      subst hpl2
      split at hrun
      next e2 heq2 =>
        exact absurd hrun (by simp)
      next c2 x2 heq2 =>
        split at hrun
        next e3 heq3 =>
          exact absurd hrun (by simp)
        next c3 x3 ret heq3 =>
          split at hrun
          · split at hrun
            next evc err heq4 =>
              exact absurd hrun (by simp)
            next evc c4 heq4 =>
              rw [Prod.mk.injEq] at hrun
              obtain ⟨hev, hafter⟩ := hrun
              have hmid : ∀ e ∈ evc, EventOk (q.length + 1) e := by
                intro e he
                exact trace_forest_sound reg q 0 cs c3 e (by rw [heq4]; exact he)
              refine ⟨evc, hev.symm, ?_, ?_⟩
              · rw [← hev]
                exact (count_sandwich q evc hmid).1
              · rw [← hev]
                exact (count_sandwich q evc hmid).2
          · rw [Prod.mk.injEq] at hrun
            obtain ⟨hev, hafter⟩ := hrun
            have hmid : ∀ e ∈ ([] : List Event), EventOk (q.length + 1) e := by
              intro e he
              exact absurd he (List.not_mem_nil e)
            refine ⟨[], ?_, ?_, ?_⟩
            · rw [← hev]
              rfl
            · rw [← hev]
              exact (count_sandwich q [] hmid).1
            · rw [← hev]
              exact (count_sandwich q [] hmid).2
    next heq =>
      simp only [Conversion.setElement, Node.tagNameOf] at heq
      rw [hpl] at heq
      exact Option.noConfusion heq
  next hviz =>
    exact absurd hvis hviz

/-- C1 witness: a concrete successful visit of a matched `b` element, with
`before` and `after` each traced exactly once, in that order. -/
theorem before_after_paired_on_success_witness :
    isVisible (Style.mk "" "") = true
    ∧ lookupPlugin wReg (toLowerString "b") = some (okPlugin ["b"] (some true))
    ∧ convertElement wReg [] wTree Conversion.initial = (wTrace, Except.ok wConv)
    ∧ ∃ mid,
        wTrace = (Event.beforeCall [] :: Event.transformCall [] :: mid) ++ [Event.afterCall []]
        ∧ wTrace.count (Event.beforeCall []) = 1
        ∧ wTrace.count (Event.afterCall []) = 1 :=
  ⟨rfl, rfl, rfl,
    before_after_paired_on_success wReg [] "b" (Style.mk "" "")
      (Forest.cons (Node.text (some "x")) Forest.nil) Conversion.initial wConv wTrace
      (okPlugin ["b"] (some true)) rfl rfl rfl⟩

/-- Registry for the C1 counterexample: a well-behaved plugin on `b` and a
plugin on `i` whose `before` hook raises an error. -/
def errReg : Registry := [("b", okPlugin ["b"] (some true)), ("i", bombPlugin ["i"])]

/-- Tree for the C1 counterexample: a matched `b` element whose only child
is a matched `i` element with an erroring hook. -/
def errTree : Node :=
  Node.element "b" (Style.mk "" "")
    (Forest.cons (Node.element "i" (Style.mk "" "") Forest.nil) Forest.nil)

/-- C1 counterexample: in a concrete conversion in which visiting a child
raises an error, the matched root element's `before` hook is called once
but its `after` hook is never called (its count in the whole conversion
trace is zero), so the pairing does not survive descendant errors. -/
theorem before_after_not_paired_on_error :
    convert errReg parseNil (some (HtmlInput.elem errTree))
      = ([Event.beforeAllCall "b", Event.beforeAllCall "i", Event.beforeCall [],
          Event.transformCall [], Event.beforeCall [0]], Except.error "boom")
    ∧ [Event.beforeAllCall "b", Event.beforeAllCall "i", Event.beforeCall [],
        Event.transformCall [], Event.beforeCall [0]].count (Event.beforeCall []) = 1
    ∧ [Event.beforeAllCall "b", Event.beforeAllCall "i", Event.beforeCall [],
        Event.transformCall [], Event.beforeCall [0]].count (Event.afterCall []) = 0 :=
  ⟨rfl, by decide, by decide⟩

/-- C2 (amended): when visiting a visible element with a matched plugin, the
engine captures `transform`'s returned boolean as the descend decision; a
missing return value (JavaScript `undefined`) is falsy and means no
descent — descend defaults to true only when no plugin matches — and when
descend is true each child node is visited recursively in document order,
its events appearing between the `transform` and `after` calls. -/
theorem descend_decision
    (reg : Registry) (q : List Nat) (tag : String) (st : Style) (cs : Forest)
    (conv d1 d2 d3 d4 : Conversion) (y1 y2 : Ctx) (pl : Plugin) (ret : Option Bool)
    (evc : List Event)
    (hvis : isVisible st = true)
    (hpl : lookupPlugin reg (toLowerString tag) = some pl)
    (hb : pl.before (Conversion.setElement conv (Node.element tag st cs)) []
        = Except.ok (d1, y1))
    (ht : pl.transform d1 y1 = Except.ok (d2, y2, ret)) :
    ((ret = some true ∧ convertChildren reg q 0 cs d2 = (evc, Except.ok d3)
        ∧ pl.after d3 y2 = Except.ok d4) →
      convertElement reg q (Node.element tag st cs) conv
        = ((Event.beforeCall q :: Event.transformCall q :: evc) ++ [Event.afterCall q],
            Except.ok d4))
    ∧ ((ret = Option.none ∨ ret = some false) → pl.after d2 y2 = Except.ok d3 →
      convertElement reg q (Node.element tag st cs) conv
        = ([Event.beforeCall q, Event.transformCall q, Event.afterCall q], Except.ok d3))
    ∧ (∀ (j : Nat) (c : Node) (rest : Forest) (cv cv1 : Conversion) (ev1 : List Event),
        convertElement reg (q ++ [j]) c cv = (ev1, Except.ok cv1) →
        convertChildren reg q j (Forest.cons c rest) cv
          = (ev1 ++ (convertChildren reg q (j + 1) rest cv1).1,
              (convertChildren reg q (j + 1) rest cv1).2)) := by
  have htag : (Conversion.setElement conv (Node.element tag st cs)).tagName
      = toLowerString tag := rfl
  refine ⟨?_, ?_, ?_⟩
  · rintro ⟨rfl, hchild, hafter⟩
    simp only [convertElement]
    split
    next hviz =>
      split
      next pl2 heq =>
        rw [htag, hpl] at heq
        injection heq with hpl2
        subst hpl2
        rw [hb]
        simp only [ht, Option.getD_some, if_true]
        rw [hchild]
        simp only [hafter]
      next heq =>
        rw [htag, hpl] at heq
        exact Option.noConfusion heq
    next hviz =>
      exact absurd hvis hviz
  · intro hret hafter
    simp only [convertElement]
    split
    next hviz =>
      split
      next pl2 heq =>
        rw [htag, hpl] at heq
        injection heq with hpl2
        subst hpl2
        rw [hb]
        simp only [ht]
        rcases hret with rfl | rfl
        · simp only [Option.getD_none, Bool.false_eq_true, if_false, hafter]
        · simp only [Option.getD_some, Bool.false_eq_true, if_false, hafter]
      next heq =>
        rw [htag, hpl] at heq
        exact Option.noConfusion heq
    next hviz =>
      exact absurd hvis hviz
  · intro j c rest cv cv1 ev1 h
    simp only [convertChildren]
    rw [h]

/-- C2 witness: a concrete matched element whose `transform` returns true,
whose text child is visited (in document order) between the `transform`
and `after` hook calls. -/
theorem descend_decision_witness :
    isVisible (Style.mk "" "") = true
    ∧ lookupPlugin wReg (toLowerString "b") = some (okPlugin ["b"] (some true))
    ∧ convertElement wReg [] wTree Conversion.initial
        = ((Event.beforeCall [] :: Event.transformCall [] :: [Event.write "x" true])
            ++ [Event.afterCall []],
            Except.ok wConv) :=
  ⟨rfl, rfl,
    (descend_decision wReg [] "b" (Style.mk "" "")
        (Forest.cons (Node.text (some "x")) Forest.nil) Conversion.initial
        (Conversion.initial.setElement wTree) (Conversion.initial.setElement wTree)
        wConv wConv [] [] (okPlugin ["b"] (some true)) (some true)
        [Event.write "x" true] rfl rfl rfl rfl).1 ⟨rfl, rfl, rfl⟩⟩

/-- Registry for the C2 counterexample: the plugin on `p` has a `transform`
hook that returns no value at all. -/
def noRetReg : Registry := [("p", okPlugin ["p"] Option.none)]

/-- Tree for the C2 counterexample: a matched `p` element with one visible
text child. -/
def noRetTree : Node :=
  Node.element "p" (Style.mk "" "") (Forest.cons (Node.text (some "hello")) Forest.nil)

/-- C2 counterexample: when the matched plugin's `transform` returns no
value, the engine does not descend — the visible text child is never
visited (no write event is traced and the output state is untouched) —
whereas the claim says an absent return value defaults the descend
decision to true. -/
theorem descend_not_defaulted_true :
    convertElement noRetReg [] noRetTree Conversion.initial
      = ([Event.beforeCall [], Event.transformCall [], Event.afterCall []],
          Except.ok (Conversion.initial.setElement noRetTree))
    ∧ [Event.beforeCall [], Event.transformCall [],
        Event.afterCall []].count (Event.write "hello" true) = 0 :=
  ⟨rfl, by decide⟩

/-- C3 (amended): for every conversion whose pipeline completes without an
error, the `beforeAll` hook of the plugin bound to each registry entry runs
exactly once per entry before the traversal, and the `afterAll` hook runs
exactly once per entry after the traversal, independent of how many
elements match; a plugin registered under several tag names therefore has
its hooks run once per tag-name entry, not once per plugin. -/
theorem lifecycle_once_per_entry
    (reg : Registry) (root : Node) (ev : List Event) (c : Conversion)
    (hrun : convertPipeline reg root Conversion.initial = (ev, Except.ok c)) :
    ∃ evT, ev = reg.map (fun en => Event.beforeAllCall en.1) ++ evT
             ++ reg.map (fun en => Event.afterAllCall en.1)
      ∧ (∀ e ∈ evT, Event.isLifecycle e = false)
      ∧ ∀ k, ev.count (Event.beforeAllCall k) = (reg.map Prod.fst).count k
           ∧ ev.count (Event.afterAllCall k) = (reg.map Prod.fst).count k := by
  simp only [convertPipeline] at hrun
  split at hrun
  next ev1 err heq1 =>
    exact absurd hrun (by simp)
  next ev1 c1 heq1 =>
    split at hrun
    next ev2 err heq2 =>
      exact absurd hrun (by simp)
    next ev2 c2 heq2 =>
      rw [Prod.mk.injEq] at hrun
      obtain ⟨hev, hr3⟩ := hrun
      have hev1 : ev1 = reg.map (fun en => Event.beforeAllCall en.1) :=
        runBeforeAll_ok_trace reg Conversion.initial ev1 c1 heq1
      have hev3 : (runAfterAll reg c2).1 = reg.map (fun en => Event.afterAllCall en.1) :=
        runAfterAll_ok_trace reg c2 (runAfterAll reg c2).1 c (by rw [← hr3])
      have hT : ∀ e ∈ ev2, Event.isLifecycle e = false := fun e he =>
        (trace_elem_sound reg [] root c1 e (by rw [heq2]; exact he)).1
      refine ⟨ev2, ?_, hT, ?_⟩
      · rw [← hev, hev1, hev3]
      · intro k
        constructor
        · rw [← hev]
          rw [List.count_append, List.count_append, hev1, hev3,
            count_beforeAll_in_beforeMap, count_beforeAll_in_afterMap,
            count_beforeAll_in_clean ev2 hT]
          omega
        · rw [← hev]
          rw [List.count_append, List.count_append, hev1, hev3,
            count_afterAll_in_afterMap, count_afterAll_in_beforeMap,
            count_afterAll_in_clean ev2 hT]
          omega

/-- The root used by lifecycle examples: an unmatched visible `div` with no
children. -/
def wDiv : Node := Node.element "div" detachedStyle Forest.nil

/-- C3 witness: a concrete successful conversion pipeline over a one-entry
registry, with that entry's `beforeAll` traced once before the traversal
and its `afterAll` once after it. -/
theorem lifecycle_once_per_entry_witness :
    convertPipeline wReg wDiv Conversion.initial
      = ([Event.beforeAllCall "b", Event.afterAllCall "b"],
          Except.ok (Conversion.initial.setElement wDiv))
    ∧ ∃ evT,
        [Event.beforeAllCall "b", Event.afterAllCall "b"]
          = wReg.map (fun en => Event.beforeAllCall en.1) ++ evT
            ++ wReg.map (fun en => Event.afterAllCall en.1)
        ∧ (∀ e ∈ evT, Event.isLifecycle e = false)
        ∧ ∀ k, [Event.beforeAllCall "b", Event.afterAllCall "b"].count (Event.beforeAllCall k)
              = (wReg.map Prod.fst).count k
            ∧ [Event.beforeAllCall "b", Event.afterAllCall "b"].count (Event.afterAllCall k)
              = (wReg.map Prod.fst).count k :=
  ⟨rfl,
    lifecycle_once_per_entry wReg wDiv [Event.beforeAllCall "b", Event.afterAllCall "b"]
      (Conversion.initial.setElement wDiv) rfl⟩

/-- C3 counterexample: registering one plugin that declares the two tag
names `b` and `strong` creates two registry entries bound to that same
plugin, and a conversion then runs the plugin's `beforeAll` hook twice
(and its `afterAll` hook twice): its buffer markers appear twice each in
the result, whereas the claim says the hooks run exactly once per plugin
independent of how many tag names it declares. -/
theorem lifecycle_twice_for_two_tags :
    registerPlugin [] (markPlugin ["b", "strong"])
      = [("b", markPlugin ["b", "strong"]), ("strong", markPlugin ["b", "strong"])]
    ∧ convert (registerPlugin [] (markPlugin ["b", "strong"])) parseNil
        (some (HtmlInput.elem wDiv))
      = ([Event.beforeAllCall "b", Event.beforeAllCall "strong",
          Event.afterAllCall "b", Event.afterAllCall "strong"], Except.ok "AAZZ") :=
  ⟨rfl, rfl⟩

/-- C4: for every element whose computed display is `none` or whose computed
visibility is `hidden`, the visit aborts the entire subtree: no plugin hook
runs, no child is visited, nothing is written (the trace is empty) and the
Output State is returned completely unchanged, regardless of the
descendants' own visibility. -/
theorem invisible_subtree_skipped
    (reg : Registry) (q : List Nat) (tag : String) (st : Style) (cs : Forest)
    (conv : Conversion)
    (h : st.display = "none" ∨ st.visibility = "hidden") :
    convertElement reg q (Node.element tag st cs) conv = ([], Except.ok conv) := by
  have hv : isVisible st = false := by
    rcases h with h | h <;> simp [isVisible, h]
  simp [convertElement, hv]

/-- C4 witness: a `display:none` element with a visible text child
contributes nothing at all. -/
theorem invisible_subtree_skipped_witness :
    ((Style.mk "none" "").display = "none" ∨ (Style.mk "none" "").visibility = "hidden")
    ∧ convertElement [] []
        (Node.element "div" (Style.mk "none" "")
          (Forest.cons (Node.text (some "hi")) Forest.nil)) Conversion.initial
      = ([], Except.ok Conversion.initial) :=
  ⟨Or.inl rfl,
    invisible_subtree_skipped [] [] "div" (Style.mk "none" "")
      (Forest.cons (Node.text (some "hi")) Forest.nil) Conversion.initial (Or.inl rfl)⟩

/-- C5: for every visited text node, if `inPreformattedBlock` is set the
text is raw-written verbatim; otherwise if `inCodeBlock` is set the text is
raw-written with every backtick replaced by a backslash-escaped backtick;
otherwise the text is written collapsibly. -/
theorem text_mode_dispatch (reg : Registry) (q : List Nat) (v : String) (conv : Conversion) :
    convertElement reg q (Node.text (some v)) conv
      = (if conv.inPreformattedBlock then
          ([Event.write v false], Except.ok (conv.output v false))
        else if conv.inCodeBlock then
          ([Event.write (escapeBackticks v) false],
            Except.ok (conv.output (escapeBackticks v) false))
        else ([Event.write v true], Except.ok (conv.output v true)))
    ∧ escapeBackticks "a`b`c" = "a\\`b\\`c" := by
  constructor
  · rfl
  · rfl

/-- C6: for every absent or empty (falsy) html input, `convert` returns the
empty string immediately: no events at all are traced (no parsing, no
traversal, no plugin hook, not even `beforeAll`/`afterAll`), and no error
is raised. -/
theorem falsy_input_empty_result (reg : Registry) (parse : String → Forest)
    (html : Option HtmlInput) (h : falsy html = true) :
    convert reg parse html = ([], Except.ok "") := by
  cases html with
  | none => rfl
  | some input =>
    cases input with
    | str s =>
      simp only [falsy] at h
      simp [convert, h]
    | elem n =>
      exact absurd h (by simp [falsy])

/-- C6 witness: the empty string input yields the empty result with an
empty trace, over a non-empty registry. -/
theorem falsy_input_empty_result_witness :
    falsy (some (HtmlInput.str "")) = true
    ∧ convert wReg parseNil (some (HtmlInput.str "")) = ([], Except.ok "") :=
  ⟨rfl, falsy_input_empty_result wReg parseNil (some (HtmlInput.str "")) rfl⟩

/-- C7: for every non-falsy input whose pipeline completes, `convert` ends
by flushing the pending paragraph break into the buffer (the final empty
append) and returns that buffer with leading and trailing whitespace
trimmed. -/
theorem convert_flushes_and_trims (reg : Registry) (parse : String → Forest)
    (input : HtmlInput) (ev : List Event) (c : Conversion)
    (hfal : falsy (some input) = false)
    (hrun : convertPipeline reg (rootOf parse input) Conversion.initial = (ev, Except.ok c)) :
    convert reg parse (some input) = (ev, Except.ok (trimString (c.buffer ++ c.pending))) := by
  cases input with
  | str s =>
    simp only [falsy] at hfal
    simp only [rootOf] at hrun
    simp only [convert, hfal, Bool.false_eq_true, if_false, hrun, finishConvert,
      Conversion.append, String.append_empty]
  | elem n =>
    simp only [rootOf] at hrun
    simp only [convert, hrun, finishConvert, Conversion.append, String.append_empty]

/-- C7 witness: converting a bare text element flushes and trims, giving
exactly the trimmed buffer of the final traversal state. -/
theorem convert_flushes_and_trims_witness :
    falsy (some (HtmlInput.elem (Node.text (some "hi")))) = false
    ∧ convertPipeline [] (rootOf parseNil (HtmlInput.elem (Node.text (some "hi"))))
        Conversion.initial
      = ([Event.write "hi" true], Except.ok (Conversion.initial.output "hi" true))
    ∧ convert [] parseNil (some (HtmlInput.elem (Node.text (some "hi"))))
      = ([Event.write "hi" true],
          Except.ok (trimString ((Conversion.initial.output "hi" true).buffer
            ++ (Conversion.initial.output "hi" true).pending))) :=
  ⟨rfl, rfl,
    convert_flushes_and_trims [] parseNil (HtmlInput.elem (Node.text (some "hi")))
      [Event.write "hi" true] (Conversion.initial.output "hi" true) rfl rfl⟩

/-- C8: when `convert` receives a non-empty string, the traversal root is a
freshly created detached `div` container element whose inner HTML is the
parse of exactly that string; when it receives an element, that element
itself is the traversal root. -/
theorem root_selection (reg : Registry) (parse : String → Forest) (s : String) (n : Node) :
    (s.isEmpty = false →
      convert reg parse (some (HtmlInput.str s))
        = finishConvert (convertPipeline reg
            (Node.element "div" detachedStyle (parse s)) Conversion.initial))
    ∧ convert reg parse (some (HtmlInput.elem n))
        = finishConvert (convertPipeline reg n Conversion.initial) := by
  constructor
  · intro h
    simp [convert, h]
  · rfl

/-- C8 witness: a concrete non-empty string input is converted through the
detached container root holding its parsed contents. -/
theorem root_selection_witness :
    "x".isEmpty = false
    ∧ convert wReg parseNil (some (HtmlInput.str "x"))
        = finishConvert (convertPipeline wReg
            (Node.element "div" detachedStyle (parseNil "x")) Conversion.initial) :=
  ⟨rfl, (root_selection wReg parseNil "x" (Node.text Option.none)).1 rfl⟩

/-- C9: for every node that is neither an element node nor a text node, the
visit leaves the Output State completely unchanged: no output is written,
no plugin hook runs and none of the node's children are visited (the trace
is empty). -/
theorem other_node_noop (reg : Registry) (q : List Nat) (cs : Forest) (conv : Conversion) :
    convertElement reg q (Node.other cs) conv = ([], Except.ok conv) := rfl

/-- C10: for every visited text node whose `nodeValue` is null, the engine
treats the value as the empty string — the visit is indistinguishable from
visiting an empty text node — and the write completes without raising an
error. -/
theorem null_text_as_empty (reg : Registry) (q : List Nat) (conv : Conversion) :
    convertElement reg q (Node.text Option.none) conv
      = convertElement reg q (Node.text (some "")) conv
    ∧ ∃ c, (convertElement reg q (Node.text Option.none) conv).2 = Except.ok c := by
  refine ⟨rfl, ?_⟩
  simp only [convertElement]
  split
  · exact ⟨_, rfl⟩
  · split
    · exact ⟨_, rfl⟩
    · exact ⟨_, rfl⟩

end Europa
